import Mathlib

/-!
# Verification of the bookit record-persistence and query engine

Shallow embedding of the generic CRUD store and filter pipeline of the
bookit time-tracking CLI (`src/generics.rs`, `src/utils.rs`) together with
its entity types (`src/contractors.rs`, `src/alias.rs`, `src/hours.rs`),
and proofs of the specification's testable properties against it.

Modelling conventions:
* Rust `HashMap<String, T>` is modelled as an association list
  `Mapping T = List (String × T)`; the real hash map has unique keys, which
  appears here as a `Nodup` hypothesis on the key list where a proof needs it.
* File-system effects are made explicit: `fs::read_to_string` is an input of
  type `Except IoError Content`; a successful `fs::write` is the function
  result.  The `BOOKIT_DIR` environment lookup is assumed resolved.
* ANSI styling from the `colored` crate is display-only and omitted from the
  message strings.
* The text layer of the `serde_json` / `toml` format libraries is modelled at
  the document level (`Json` / `Toml` ASTs below); `chrono` date formatting,
  which the JSON codec routes through strings, is modelled down to the
  character level.
-/

namespace Bookit

/-- Model of the `std::io::Error` kinds relevant to reading/writing the
backing file. -/
inductive IoError : Type
  | notFound
  | permissionDenied
  | other (msg : String)
  deriving DecidableEq, Repr

/-- Model of `std::env::VarError`. -/
inductive VarError : Type
  | notPresent
  | notUnicode
  deriving DecidableEq, Repr

/-- The error enum of `src/errors.rs` (`CliError`), with `io::Error` payloads
replaced by `IoError` and `VarError` by the model above. -/
inductive CliError : Type
  | UnknownAction (action : String)
  | Slug (slug : String) (expect : Bool)
  | Read (e : IoError)
  | Write (e : IoError)
  | Serialization (msg : String)
  | Env (var : String) (e : VarError)
  | Directive (input : String) (context : String)
  | Parse (input : String) (description : String)
  | SlugNotFound (slug : String) (existing : List String)
  | FilterNoResults
  | InvalidSortQuery (input : String)
  | CmdError (msg : String)
  | BinaryError (msg : String)
  deriving DecidableEq, Repr

deriving instance DecidableEq for Except

/-- `HashMap<String, T>` modelled as an association list. -/
abbrev Mapping (T : Type) : Type := List (String × T)

/-- `HashMap::get`: value stored at key `k`, if any. -/
def mapGet {T : Type} : Mapping T → String → Option T
  | [], _ => none
  | (k', v) :: t, k => if k' = k then some v else mapGet t k

/-- `HashMap::contains_key`. -/
def mapContains {T : Type} (m : Mapping T) (k : String) : Bool :=
  (mapGet m k).isSome

/-- `HashMap::insert`: replaces the value when the key is present, otherwise
adds the pair. -/
def mapInsert {T : Type} : Mapping T → String → T → Mapping T
  | [], k, v => [(k, v)]
  | (k', v') :: t, k, v =>
      if k' = k then (k, v) :: t else (k', v') :: mapInsert t k v

/-- `HashMap::remove`: removes the entry at key `k`. -/
def mapRemove {T : Type} : Mapping T → String → Mapping T
  | [], _ => []
  | (k', v') :: t, k =>
      if k' = k then mapRemove t k else (k', v') :: mapRemove t k

/-- Keys of the mapping, in order. -/
def mapKeys {T : Type} (m : Mapping T) : List String :=
  m.map Prod.fst

/-! ## The `Crud` trait of `src/generics.rs`

Every operation of the trait reads the collection through
`mapping()` (= load file, decode) and persists through `commit_map`
(= encode, write file).  The content type of the backing file is
abstracted to `C` so that codecs can be stated at the document level. -/

/-- `Crud::file_content` (`src/generics.rs:31`): result of
`fs::read_to_string` on the backing file, with a read failure wrapped in
`CliError::Read`.  A missing file surfaces as `IoError.notFound`. -/
def file_content {C : Type} (readResult : Except IoError C) : Except CliError C :=
  match readResult with
  | .ok s => .ok s
  | .error io_err => .error (.Read io_err)

/-- `Crud::mapping` (`src/generics.rs:38`): load the file content, then
decode it with the entity's `deserialize`. -/
def mapping {T C : Type} (deserialize : C → Except CliError (Mapping T))
    (readResult : Except IoError C) : Except CliError (Mapping T) :=
  match file_content readResult with
  | .ok content => deserialize content
  | .error e => .error e

/-- `Crud::write_ok` (`src/generics.rs:78`): precondition check on the
identifier before a mutation.  `slug_expect` tells whether the slug must
already be present (`overwrite`/`delete`) or absent (`add`). -/
def write_ok {T : Type} (map : Mapping T) (slug : String) (slug_expect : Bool) :
    Except CliError Unit :=
  match slug_expect, mapContains map slug with
  | true, true => .ok ()
  | false, false => .ok ()
  | true, false =>
      .error (.CmdError ("item with slug " ++ slug ++ " was not found"))
  | false, true =>
      .error (.CmdError ("item with slug " ++ slug ++ " already exists"))

/-- `Crud::add` (`src/generics.rs:52`) as a transition on the decoded
collection: check the slug is absent, insert, commit.  The argument `m` is
the collection currently on disk; the result is the collection after the
commit, or the error when the precondition fails (in which case nothing
was written). -/
def add {T : Type} (identifier : T → String) (self : T) (m : Mapping T) :
    Except CliError (Mapping T) :=
  match write_ok m (identifier self) false with
  | .error e => .error e
  | .ok () => .ok (mapInsert m (identifier self) self)

/-- Collection on disk after `add`: unchanged when `add` returned an error
(no commit ran). -/
def runAdd {T : Type} (identifier : T → String) (self : T) (m : Mapping T) :
    Mapping T :=
  match add identifier self m with
  | .ok m' => m'
  | .error _ => m

/-- `Crud::overwrite` (`src/generics.rs:69`): check the slug is present,
remove it, insert the new record, commit. -/
def overwrite {T : Type} (identifier : T → String) (self : T) (m : Mapping T) :
    Except CliError (Mapping T) :=
  match write_ok m (identifier self) true with
  | .error e => .error e
  | .ok () => .ok (mapInsert (mapRemove m (identifier self)) (identifier self) self)

/-- Collection on disk after `overwrite`: unchanged on error. -/
def runOverwrite {T : Type} (identifier : T → String) (self : T) (m : Mapping T) :
    Mapping T :=
  match overwrite identifier self m with
  | .ok m' => m'
  | .error _ => m

/-- `Crud::available_slugs` (`src/generics.rs:114`). -/
def available_slugs {T : Type} (m : Mapping T) : List String :=
  mapKeys m

/-- `Crud::retrieve` (`src/generics.rs:93`): lookup by slug; on a miss the
error lists the available slugs, truncated past the first ten. -/
def retrieve {T : Type} (m : Mapping T) (slug : String) : Except CliError T :=
  match mapGet m slug with
  | some obj => .ok obj
  | none =>
      let existing := available_slugs m
      .error (.CmdError (slug ++ " not found. Available values are: " ++
        (if existing.length ≤ 10 then
          String.intercalate " | " existing
        else
          String.intercalate " | " (existing.take 10) ++ " (output truncated...)")))

/-! ## The `Filter` trait of `src/generics.rs`

`apply_filterset` (`src/generics.rs:161`) matches on
`(items.len(), filters.len())`: an empty item list is `FilterNoResults`
even before an empty filter list is considered; a non-empty item list with
no filters passes through; otherwise the head filter is applied and the
recursion continues on the tail.  The trait's entity-supplied
`Self::filter` is the parameter `filt`. -/

/-- `Filter::apply_filterset` (`src/generics.rs:161`). -/
def apply_filterset {R F : Type} (filt : List R → F → List R) :
    List R → List F → Except CliError (List R)
  | [], _ => .error .FilterNoResults
  | items, [] => .ok items
  | items, f :: tail => apply_filterset filt (filt items f) tail

/-- Instrumented `apply_filterset` that also returns the list of filters
actually handed to `Self::filter`, in application order. -/
def apply_filterset_tr {R F : Type} (filt : List R → F → List R) :
    List R → List F → Except CliError (List R) × List F
  | [], _ => (.error .FilterNoResults, [])
  | items, [] => (.ok items, [])
  | items, f :: tail =>
      let rec_result := apply_filterset_tr filt (filt items f) tail
      (rec_result.1, f :: rec_result.2)

/-- Possible outcomes of running the literal recursion of
`apply_filterset` with a fuel bound: it can run out of fuel (the
surrogate for non-termination), hit the `filters.first().unwrap()` panic,
or produce the value the function returns. -/
inductive RunOutcome (R : Type) : Type
  | outOfFuel
  | panicked
  | value (v : Except CliError (List R))

/-- Operational model of `apply_filterset` exactly as written in the
source: the match is on the pair of lengths, the head filter is obtained
by `filters.first()` (here `List.head?`) followed by `.unwrap()` (whose
`None` case is the `panicked` outcome), and the recursive call runs on
`filters[1..]` (here `List.drop 1`) under one unit less fuel. -/
def apply_filterset_run {R F : Type} (filt : List R → F → List R) :
    Nat → List R → List F → RunOutcome R
  | 0, _, _ => .outOfFuel
  | fuel + 1, items, filters =>
      if items.length = 0 then .value (.error .FilterNoResults)
      else if filters.length = 0 then .value (.ok items)
      else
        match filters.head? with
        | none => .panicked
        | some head => apply_filterset_run filt fuel (filt items head) (filters.drop 1)

/-! ## `slugify` of `src/utils.rs`

`slugify(s) = s.to_lowercase().split_whitespace().collect()`: lowercase
the string with `str::to_lowercase`, then concatenate its
whitespace-separated pieces, i.e. drop every whitespace character.

`str::to_lowercase` maps every character through the full Unicode
lowercase table (`conversions::to_lower`, embedded below as
`lowerPages`), except the capital sigma `Σ`, which the Rust source
special-cases by hand: it becomes the final form `ς` when no cased
character follows it (skipping case-ignorable characters), and `σ`
otherwise.  The table's one multi-character mapping is `İ` to `i`
followed by a combining dot above.  The ASCII fast path of the Rust
implementation is behaviorally identical to the table lookup and is not
modelled separately.  `isRustWhitespace` is the Unicode `White_Space`
set that `split_whitespace` splits on. -/

/-- `chrono::NaiveDate`: a calendar date. -/
structure Date where
  year : Nat
  month : Nat
  day : Nat
  deriving DecidableEq, Ord, Repr

/-- Time of day with nanosecond precision (`chrono::NaiveTime`). -/
structure Time where
  hour : Nat
  minute : Nat
  second : Nat
  nano : Nat
  deriving DecidableEq, Ord, Repr

/-- `chrono::NaiveDateTime`. -/
structure DateTime where
  date : Date
  time : Time
  deriving DecidableEq, Ord, Repr

/-- Range validity of a `NaiveDate` as the codec checks it (4-digit years;
month and day ranges approximate the calendar check `chrono` performs). -/
def Date.validB (d : Date) : Bool :=
  d.year ≤ 9999 && 1 ≤ d.month && d.month ≤ 12 && 1 ≤ d.day && d.day ≤ 31

/-- Range validity of a `NaiveDateTime`. -/
def DateTime.validB (dt : DateTime) : Bool :=
  dt.date.validB && dt.time.hour ≤ 23 && dt.time.minute ≤ 59 &&
    dt.time.second ≤ 59 && dt.time.nano < 1000000000

/-! ## `Contractor` (`src/contractors.rs`) -/

/-- `Contractor` (`src/contractors.rs:16`). -/
structure Contractor where
  slug : String
  name : String
  deriving DecidableEq, Repr

/-- `Crud::identifier` for `Contractor` (`src/contractors.rs:65`). -/
def Contractor.identifier (self : Contractor) : String :=
  self.slug

namespace Contractors

/-- Filter directives for contractors (`src/contractors.rs:123`). -/
inductive F : Type
  | NoFilter
  deriving DecidableEq, Repr

/-- Sort directives for contractors (`src/contractors.rs:136`). -/
inductive S : Type
  | NoSort
  deriving DecidableEq, Repr

end Contractors

/-- `Filter::filter` for `Contractor` (`src/contractors.rs:157`): ignores
the method. -/
def Contractor.filter (items : List Contractor) (_method : Contractors.F) :
    List Contractor :=
  items

/-- `Filter::sort` for `Contractor` (`src/contractors.rs:161`): ignores
the method. -/
def Contractor.sort (items : List Contractor) (_method : Contractors.S) :
    List Contractor :=
  items

/-! ## `Alias` (`src/alias.rs`) -/

/-- `Alias` (`src/alias.rs:31`); `hourly_rate` is a `u8`. -/
structure Alias where
  slug : String
  contractor : String
  short_description : String
  hourly_rate : Nat
  deriving DecidableEq, Repr

/-- `Crud::identifier` for `Alias` (`src/alias.rs:80`). -/
def Alias.identifier (self : Alias) : String :=
  self.slug

namespace Aliases

/-- Filter directives for aliases (`src/alias.rs:156`). -/
inductive F : Type
  | NoFilter
  | Contractor (contractor : String)
  deriving DecidableEq, Repr

/-- Sort directives for aliases (`src/alias.rs:173`). -/
inductive S : Type
  | NoSort
  deriving DecidableEq, Repr

end Aliases

/-- `Filter::filter` for `Alias` (`src/alias.rs:194`). -/
def Alias.filter (items : List Alias) (method : Aliases.F) : List Alias :=
  match method with
  | .NoFilter => items
  | .Contractor contractor => items.filter (fun item => item.contractor == contractor)

/-- `Filter::sort` for `Alias` (`src/alias.rs:204`): returns the items
unchanged for every method. -/
def Alias.sort (items : List Alias) (_method : Aliases.S) : List Alias :=
  items

/-! ## `HourLog` (`src/hours.rs`) -/

/-- `HourLog` (`src/hours.rs:55`); `minutes` is a `u32`. -/
structure HourLog where
  «alias» : String
  minutes : Nat
  date : Date
  message : Option String
  ticket : Option String
  branch : Option String
  id : String
  timestamp : DateTime
  deriving DecidableEq, Repr

/-- `Crud::identifier` for `HourLog` (`src/hours.rs:215`). -/
def HourLog.identifier (self : HourLog) : String :=
  self.id

namespace Hours

/-- Filter directives for hour logs (`src/hours.rs:233`). -/
inductive F : Type
  | NoFilter
  | ByAlias («alias» : String)
  deriving DecidableEq, Repr

/-- Sort directives for hour logs (`src/hours.rs:264`). -/
inductive S : Type
  | NoSort
  | ByTimestamp
  deriving DecidableEq, Repr

/-- `Filter::DEFAULT_SORT` for `HourLog` (`src/hours.rs:284`). -/
def DEFAULT_SORT : S := .NoSort

/-- `Filter::DEFAULT_FILTER` for `HourLog` (`src/hours.rs:285`). -/
def DEFAULT_FILTER : F := .NoFilter

end Hours

/-- `Filter::filter` for `HourLog` (`src/hours.rs:292`). -/
def HourLog.filter (items : List HourLog) (method : Hours.F) : List HourLog :=
  match method with
  | .NoFilter => items
  | .ByAlias a => items.filter (fun item => item.«alias» == a)

/-- `Filter::sort` for `HourLog` (`src/hours.rs:302`): `ByTimestamp` is the
stable sort by descending creation timestamp, `NoSort` returns the items
unchanged. -/
def HourLog.sort (items : List HourLog) (method : Hours.S) : List HourLog :=
  match method with
  | .ByTimestamp =>
      items.mergeSort (fun a b => (compare b.timestamp a.timestamp).isLE)
  | .NoSort => items

/-! ## Decimal printing and parsing of numbers

Support for the `chrono` string forms that the JSON codec stores dates and
timestamps in.  `toDigitsRev` computes the little-endian decimal digits of
a number by repeated division, with a structural fuel argument so every
definition evaluates by kernel reduction. -/

/-- Character of a decimal digit. -/
def digitChar (d : Nat) : Char :=
  Char.ofNat (48 + d)

/-- Numeric value of a decimal digit character. -/
def charVal (c : Char) : Nat :=
  c.toNat - 48

/-- Decimal digit test on the character's scalar value. -/
def isDigitChar (c : Char) : Bool :=
  48 ≤ c.toNat && c.toNat ≤ 57

/-- Little-endian decimal digits of `n` (fuel-bounded; `fuel ≥ n` is always
enough). -/
def toDigitsRev : Nat → Nat → List Nat
  | 0, _ => []
  | fuel + 1, n => if n = 0 then [] else n % 10 :: toDigitsRev fuel (n / 10)

/-- Value of a little-endian decimal digit list. -/
def digitsVal : List Nat → Nat
  | [] => 0
  | d :: ds => d + 10 * digitsVal ds

/-- Decimal notation of `n`, most significant digit first (empty for 0). -/
def natChars (n : Nat) : List Char :=
  ((toDigitsRev n n).map digitChar).reverse

/-- Decimal notation of `n` zero-padded on the left to width `w`. -/
def padNat (w n : Nat) : List Char :=
  List.replicate (w - (natChars n).length) '0' ++ natChars n

/-- Value of a most-significant-first decimal character list. -/
def charsToNat (cs : List Char) : Nat :=
  digitsVal ((cs.map charVal).reverse)

/-- Every character of the list is a decimal digit. -/
def allDigits (cs : List Char) : Bool :=
  cs.all isDigitChar

/-! ## `chrono` textual forms used by the serde codecs

`NaiveDate` serializes as `%Y-%m-%d` and `NaiveDateTime` as
`%Y-%m-%dT%H:%M:%S%.f`, where `%.f` prints nothing for zero nanoseconds
and otherwise a dot followed by 3, 6 or 9 fractional digits. -/

/-- `%Y-%m-%d` form of a date. -/
def dateChars (d : Date) : List Char :=
  padNat 4 d.year ++ '-' :: (padNat 2 d.month ++ '-' :: padNat 2 d.day)

/-- `%.f` form of the nanosecond field: empty for 0, otherwise a dot and
3, 6 or 9 digits depending on the trailing zeros. -/
def fracChars (nano : Nat) : List Char :=
  if nano = 0 then []
  else if nano % 1000000 = 0 then '.' :: padNat 3 (nano / 1000000)
  else if nano % 1000 = 0 then '.' :: padNat 6 (nano / 1000)
  else '.' :: padNat 9 nano

/-- `%H:%M:%S%.f` form of a time of day. -/
def timeChars (t : Time) : List Char :=
  padNat 2 t.hour ++ ':' :: (padNat 2 t.minute ++ ':' :: (padNat 2 t.second ++ fracChars t.nano))

/-- `%Y-%m-%dT%H:%M:%S%.f` form of a date-time. -/
def dateTimeChars (dt : DateTime) : List Char :=
  dateChars dt.date ++ 'T' :: timeChars dt.time

/-- String form of a date (`NaiveDate` serde representation). -/
def dateToString (d : Date) : String :=
  String.mk (dateChars d)

/-- String form of a date-time (`NaiveDateTime` serde representation). -/
def dateTimeToString (dt : DateTime) : String :=
  String.mk (dateTimeChars dt)

/-- Parse `%Y-%m-%d` at the front of the character list; returns the date
fields and the unconsumed remainder. -/
def parseDateChars (cs : List Char) : Option (Date × List Char) :=
  let ys := cs.takeWhile isDigitChar
  let r1 := cs.dropWhile isDigitChar
  if ys.isEmpty then none else
  match r1 with
  | '-' :: r2 =>
      let ms := r2.takeWhile isDigitChar
      let r3 := r2.dropWhile isDigitChar
      if ms.isEmpty then none else
      match r3 with
      | '-' :: r4 =>
          let ds := r4.takeWhile isDigitChar
          let r5 := r4.dropWhile isDigitChar
          if ds.isEmpty then none else
          some (⟨charsToNat ys, charsToNat ms, charsToNat ds⟩, r5)
      | _ => none
  | _ => none

/-- Parse the `%.f` fractional-second suffix: empty means zero nanoseconds,
otherwise a dot followed by 1 to 9 digits scaled to nanoseconds. -/
def parseFracChars (cs : List Char) : Option Nat :=
  match cs with
  | [] => some 0
  | '.' :: ds =>
      if ds.isEmpty then none
      else if allDigits ds && ds.length ≤ 9 then
        some (charsToNat ds * 10 ^ (9 - ds.length))
      else none
  | _ => none

/-- Parse `%H:%M:%S%.f`, consuming the whole character list. -/
def parseTimeChars (cs : List Char) : Option Time :=
  let hs := cs.takeWhile isDigitChar
  let r1 := cs.dropWhile isDigitChar
  if hs.isEmpty then none else
  match r1 with
  | ':' :: r2 =>
      let ms := r2.takeWhile isDigitChar
      let r3 := r2.dropWhile isDigitChar
      if ms.isEmpty then none else
      match r3 with
      | ':' :: r4 =>
          let ss := r4.takeWhile isDigitChar
          let r5 := r4.dropWhile isDigitChar
          if ss.isEmpty then none else
          match parseFracChars r5 with
          | some nano => some ⟨charsToNat hs, charsToNat ms, charsToNat ss, nano⟩
          | none => none
      | _ => none
  | _ => none

/-- Parse a complete `%Y-%m-%d` string, with the range validation
`chrono`'s date parser performs. -/
def dateFromChars (cs : List Char) : Option Date :=
  match parseDateChars cs with
  | some (d, []) => if d.validB then some d else none
  | _ => none

/-- Parse a complete `%Y-%m-%dT%H:%M:%S%.f` string, with range
validation. -/
def dateTimeFromChars (cs : List Char) : Option DateTime :=
  match parseDateChars cs with
  | some (d, 'T' :: rest) =>
      match parseTimeChars rest with
      | some t => if DateTime.validB ⟨d, t⟩ then some ⟨d, t⟩ else none
      | none => none
  | _ => none

/-- String-level date parsing. -/
def dateFromString (s : String) : Option Date :=
  dateFromChars s.data

/-- String-level date-time parsing. -/
def dateTimeFromString (s : String) : Option DateTime :=
  dateTimeFromChars s.data

/-! ## The JSON codec of `HourLog` (`src/hours.rs:219`)

`serde_json` is modelled at its document level: `serialize` produces the
JSON value `to_string` would print and `deserialize` consumes the JSON
value `from_str` would parse, including serde's field handling (`Option`
as `null`/value, `u32` range check, `chrono` values as strings). -/

/-- JSON document values (the fragment the `HourLog` codec produces). -/
inductive Json : Type
  | null
  | str (s : String)
  | num (n : Nat)
  | obj (entries : List (String × Json))

/-- Lookup of an object field. -/
def jlookup : List (String × Json) → String → Option Json
  | [], _ => none
  | (k', v) :: t, k => if k' = k then some v else jlookup t k

/-- Required object field. -/
def jField (es : List (String × Json)) (k : String) : Except CliError Json :=
  match jlookup es k with
  | some v => .ok v
  | none => .error (.Serialization ("missing field " ++ k))

/-- Decode a JSON string. -/
def jString : Json → Except CliError String
  | .str s => .ok s
  | _ => .error (.Serialization "expected a string")

/-- Decode a `u32` from a JSON number. -/
def jU32 : Json → Except CliError Nat
  | .num n => if n < 4294967296 then .ok n else .error (.Serialization "u32 out of range")
  | _ => .error (.Serialization "expected a number")

/-- Decode an `Option<String>`: `null` is `None`, a string is `Some`. -/
def jOptString : Json → Except CliError (Option String)
  | .null => .ok none
  | .str s => .ok (some s)
  | _ => .error (.Serialization "expected a string or null")

/-- Decode a `NaiveDate` stored as a string. -/
def jDate : Json → Except CliError Date
  | .str s =>
      match dateFromString s with
      | some d => .ok d
      | none => .error (.Serialization "invalid date")
  | _ => .error (.Serialization "expected a date string")

/-- Decode a `NaiveDateTime` stored as a string. -/
def jDateTime : Json → Except CliError DateTime
  | .str s =>
      match dateTimeFromString s with
      | some dt => .ok dt
      | none => .error (.Serialization "invalid datetime")
  | _ => .error (.Serialization "expected a datetime string")

/-- Serde form of an `Option<String>` value. -/
def optStringJson : Option String → Json
  | none => .null
  | some s => .str s

/-- Serde serialization of one `HourLog`, fields in declaration order. -/
def HourLog.toJson (self : HourLog) : Json :=
  .obj [("alias", .str self.«alias»),
        ("minutes", .num self.minutes),
        ("date", .str (dateToString self.date)),
        ("message", optStringJson self.message),
        ("ticket", optStringJson self.ticket),
        ("branch", optStringJson self.branch),
        ("id", .str self.id),
        ("timestamp", .str (dateTimeToString self.timestamp))]

/-- Serde deserialization of one `HourLog`. -/
def HourLog.fromJson (j : Json) : Except CliError HourLog :=
  match j with
  | .obj es => do
      let a ← jField es "alias" >>= jString
      let mi ← jField es "minutes" >>= jU32
      let d ← jField es "date" >>= jDate
      let me ← jField es "message" >>= jOptString
      let ti ← jField es "ticket" >>= jOptString
      let br ← jField es "branch" >>= jOptString
      let i ← jField es "id" >>= jString
      let ts ← jField es "timestamp" >>= jDateTime
      .ok ⟨a, mi, d, me, ti, br, i, ts⟩
  | _ => .error (.Serialization "expected an object")

/-- `HourLog::serialize` (`src/hours.rs:223`): the JSON document of the
whole collection, one object member per record. -/
def HourLog.serialize (map : Mapping HourLog) : Json :=
  .obj (map.map (fun p => (p.1, HourLog.toJson p.2)))

/-- Decode every member of a JSON object into a mapping entry. -/
def jEntries (es : List (String × Json)) : Except CliError (Mapping HourLog) :=
  match es with
  | [] => .ok []
  | (k, j) :: t =>
      match HourLog.fromJson j with
      | .error e => .error e
      | .ok v =>
          match jEntries t with
          | .error e => .error e
          | .ok r => .ok ((k, v) :: r)

/-- `HourLog::deserialize` (`src/hours.rs:219`). -/
def HourLog.deserialize (j : Json) : Except CliError (Mapping HourLog) :=
  match j with
  | .obj es => jEntries es
  | _ => .error (.Serialization "expected an object")

/-- Field validity of an `HourLog` as a Rust value: `minutes` fits in
`u32` and the calendar fields are in range. -/
def HourLog.validB (self : HourLog) : Bool :=
  self.minutes < 4294967296 && self.date.validB && self.timestamp.validB

/-! ## The TOML codec of `Contractor` (`src/contractors.rs:69`) and
`Alias` (`src/alias.rs:84`)

`toml` is likewise modelled at its document level: the collection is a
top-level table with one sub-table per record. -/

/-- TOML document values (the fragment these codecs produce). -/
inductive Toml : Type
  | str (s : String)
  | int (n : Nat)
  | table (entries : List (String × Toml))

/-- Lookup of a table key. -/
def tlookup : List (String × Toml) → String → Option Toml
  | [], _ => none
  | (k', v) :: t, k => if k' = k then some v else tlookup t k

/-- Required table key. -/
def tField (es : List (String × Toml)) (k : String) : Except CliError Toml :=
  match tlookup es k with
  | some v => .ok v
  | none => .error (.Serialization ("missing field " ++ k))

/-- Decode a TOML string. -/
def tString : Toml → Except CliError String
  | .str s => .ok s
  | _ => .error (.Serialization "expected a string")

/-- Decode a `u8` from a TOML integer. -/
def tU8 : Toml → Except CliError Nat
  | .int n => if n < 256 then .ok n else .error (.Serialization "u8 out of range")
  | _ => .error (.Serialization "expected an integer")

/-- Serde serialization of one `Contractor`. -/
def Contractor.toToml (self : Contractor) : Toml :=
  .table [("slug", .str self.slug), ("name", .str self.name)]

/-- Serde deserialization of one `Contractor`. -/
def Contractor.fromToml (t : Toml) : Except CliError Contractor :=
  match t with
  | .table es => do
      let slug ← tField es "slug" >>= tString
      let name ← tField es "name" >>= tString
      .ok ⟨slug, name⟩
  | _ => .error (.Serialization "expected a table")

/-- `Contractor::serialize` (`src/contractors.rs:73`). -/
def Contractor.serialize (map : Mapping Contractor) : Toml :=
  .table (map.map (fun p => (p.1, Contractor.toToml p.2)))

/-- Decode every sub-table of the top-level table. -/
def tContractorEntries (es : List (String × Toml)) : Except CliError (Mapping Contractor) :=
  match es with
  | [] => .ok []
  | (k, t) :: rest =>
      match Contractor.fromToml t with
      | .error e => .error e
      | .ok v =>
          match tContractorEntries rest with
          | .error e => .error e
          | .ok r => .ok ((k, v) :: r)

/-- `Contractor::deserialize` (`src/contractors.rs:69`). -/
def Contractor.deserialize (t : Toml) : Except CliError (Mapping Contractor) :=
  match t with
  | .table es => tContractorEntries es
  | _ => .error (.Serialization "expected a table")

/-- Serde serialization of one `Alias`. -/
def Alias.toToml (self : Alias) : Toml :=
  .table [("slug", .str self.slug), ("contractor", .str self.contractor),
          ("short_description", .str self.short_description),
          ("hourly_rate", .int self.hourly_rate)]

/-- Serde deserialization of one `Alias`. -/
def Alias.fromToml (t : Toml) : Except CliError Alias :=
  match t with
  | .table es => do
      let slug ← tField es "slug" >>= tString
      let contractor ← tField es "contractor" >>= tString
      let short_description ← tField es "short_description" >>= tString
      let hourly_rate ← tField es "hourly_rate" >>= tU8
      .ok ⟨slug, contractor, short_description, hourly_rate⟩
  | _ => .error (.Serialization "expected a table")

/-- `Alias::serialize` (`src/alias.rs:88`). -/
def Alias.serialize (map : Mapping Alias) : Toml :=
  .table (map.map (fun p => (p.1, Alias.toToml p.2)))

/-- Decode every sub-table of the top-level table. -/
def tAliasEntries (es : List (String × Toml)) : Except CliError (Mapping Alias) :=
  match es with
  | [] => .ok []
  | (k, t) :: rest =>
      match Alias.fromToml t with
      | .error e => .error e
      | .ok v =>
          match tAliasEntries rest with
          | .error e => .error e
          | .ok r => .ok ((k, v) :: r)

/-- `Alias::deserialize` (`src/alias.rs:84`). -/
def Alias.deserialize (t : Toml) : Except CliError (Mapping Alias) :=
  match t with
  | .table es => tAliasEntries es
  | _ => .error (.Serialization "expected a table")

/-- Field validity of an `Alias` as a Rust value: `hourly_rate` fits in
`u8`. -/
def Alias.validB (self : Alias) : Bool :=
  self.hourly_rate < 256

/-! ## Concrete fixtures

Sample records used to instantiate the general theorems at concrete
inputs. -/

/-- A sample date. -/
def sampleDate : Date := ⟨2024, 1, 15⟩

/-- A sample creation timestamp. -/
def sampleDateTime : DateTime := ⟨⟨2024, 1, 15⟩, ⟨9, 30, 0, 0⟩⟩

/-- A sample hour booking. -/
def sampleLog : HourLog :=
  ⟨"proj", 90, sampleDate, some "work", none, none, "abc123", sampleDateTime⟩

/-- The contractor of the specification's duplicate-`add` scenario. -/
def acmeContractor : Contractor := ⟨"acme", "Acme Corp"⟩

/-- A second contractor with the same slug and a different name. -/
def otherContractor : Contractor := ⟨"acme", "Other"⟩

/-- A sample alias. -/
def sampleAlias : Alias := ⟨"proj", "acme", "project work", 85⟩

/-! ## Association-list facts about the `HashMap` model -/

/-- Inserting then reading the same key gives the inserted value. -/
theorem mapGet_mapInsert_self {T : Type} (m : Mapping T) (k : String) (v : T) :
    mapGet (mapInsert m k v) k = some v := by
  induction m with
  | nil => simp [mapInsert, mapGet]
  | cons p t ih =>
      obtain ⟨k', v'⟩ := p
      by_cases h : k' = k
      · simp [mapInsert, h, mapGet]
      · simp [mapInsert, h, mapGet, ih]

/-- A key is contained exactly when it is among the keys. -/
theorem mapContains_iff_mem {T : Type} (m : Mapping T) (k : String) :
    mapContains m k = true ↔ k ∈ mapKeys m := by
  induction m with
  | nil => simp [mapContains, mapGet, mapKeys]
  | cons p t ih =>
      obtain ⟨k', v'⟩ := p
      by_cases h : k' = k
      · simp [mapContains, mapGet, h, mapKeys]
      · simpa [mapContains, mapGet, h, mapKeys, Ne.symm h] using ih

/-- Removing a key removes every binding of it. -/
theorem mapGet_mapRemove_self {T : Type} (m : Mapping T) (k : String) :
    mapGet (mapRemove m k) k = none := by
  induction m with
  | nil => simp [mapRemove, mapGet]
  | cons p t ih =>
      obtain ⟨k', v'⟩ := p
      by_cases h : k' = k
      · simpa [mapRemove, h] using ih
      · simpa [mapRemove, mapGet, h] using ih

/-- Removing an absent key is a no-op. -/
theorem mapRemove_eq_self {T : Type} (m : Mapping T) (k : String)
    (h : mapContains m k = false) : mapRemove m k = m := by
  induction m with
  | nil => simp [mapRemove]
  | cons p t ih =>
      obtain ⟨k', v'⟩ := p
      by_cases hk : k' = k
      · simp [mapContains, mapGet, hk] at h
      · simp only [mapContains, mapGet, if_neg hk] at h
        simp [mapRemove, hk, ih h]

/-- Inserting an absent key grows the list by one entry. -/
theorem mapInsert_length {T : Type} (m : Mapping T) (k : String) (v : T)
    (h : mapContains m k = false) : (mapInsert m k v).length = m.length + 1 := by
  induction m with
  | nil => simp [mapInsert]
  | cons p t ih =>
      obtain ⟨k', v'⟩ := p
      by_cases hk : k' = k
      · simp [mapContains, mapGet, hk] at h
      · simp only [mapContains, mapGet, if_neg hk] at h
        simp [mapInsert, hk, ih h]

/-- Removing a present key from a mapping with distinct keys shrinks it by
exactly one entry. -/
theorem mapRemove_length {T : Type} (m : Mapping T) (k : String)
    (hnd : (mapKeys m).Nodup) (h : mapContains m k = true) :
    (mapRemove m k).length + 1 = m.length := by
  induction m with
  | nil => simp [mapContains, mapGet] at h
  | cons p t ih =>
      obtain ⟨k', v'⟩ := p
      simp only [mapKeys, List.map_cons, List.nodup_cons] at hnd
      by_cases hk : k' = k
      · subst hk
        have hnc : mapContains t k' = false := by
          rcases hc : mapContains t k' with _ | _
          · rfl
          · exact absurd ((mapContains_iff_mem t k').1 hc) hnd.1
        simp [mapRemove, mapRemove_eq_self t k' hnc]
      · simp only [mapContains, mapGet, if_neg hk] at h
        simp [mapRemove, hk, ih hnd.2 h]

/-! ## Claim C1 — behaviour of `load()` on a missing backing file -/

/-- C1 (counterexample): on a missing backing file (`fs::read_to_string`
fails with not-found), `Crud::mapping` for the `HourLog` codec returns
`CliError::Read`, not the empty collection the claim asserts. -/
theorem load_missing_file_not_empty :
    mapping HourLog.deserialize (.error .notFound) = .error (.Read .notFound) ∧
    mapping HourLog.deserialize (.error .notFound) ≠
      .ok ([] : Mapping HourLog) := by
  constructor
  · rfl
  · decide

/-- C1 (amended): for every entity codec, loading the collection when the
backing file cannot be read — a missing file included — fails with
`CliError::Read` wrapping the I/O error; the missing-file case is not
turned into an empty mapping. -/
theorem load_read_failure {T C : Type}
    (deserialize : C → Except CliError (Mapping T)) (e : IoError) :
    mapping deserialize (.error e) = .error (.Read e) :=
  rfl

/-! ## Claim C4 — `add` and duplicate identifiers -/

/-- C4: when the record's identifier is already stored, `add` fails with
the duplicate-identifier error and the stored collection is unchanged
(nothing is committed); when the identifier is absent, `add` succeeds and
inserts exactly that record. -/
theorem add_duplicate_spec {T : Type} (identifier : T → String) (r : T)
    (m : Mapping T) :
    (mapContains m (identifier r) = true →
      add identifier r m =
        .error (.CmdError ("item with slug " ++ identifier r ++ " already exists")) ∧
      runAdd identifier r m = m) ∧
    (mapContains m (identifier r) = false →
      add identifier r m = .ok (mapInsert m (identifier r) r)) := by
  constructor
  · intro h
    constructor
    · simp [add, write_ok, h]
    · simp [runAdd, add, write_ok, h]
  · intro h
    simp [add, write_ok, h]

/-- C4 (witness): the specification's scenario — adding a second
contractor under the already-used slug `acme` fails and leaves the
collection holding only the first value. -/
theorem add_duplicate_spec_witness :
    add Contractor.identifier otherContractor [("acme", acmeContractor)] =
      .error (.CmdError "item with slug acme already exists") ∧
    runAdd Contractor.identifier otherContractor [("acme", acmeContractor)] =
      [("acme", acmeContractor)] :=
  (add_duplicate_spec Contractor.identifier otherContractor
    [("acme", acmeContractor)]).1 (by decide)

/-! ## Claim C6 — add-then-retrieve -/

/-- C6: when `add` succeeds on a record, retrieving the record's
identifier from the committed collection succeeds and returns that
record. -/
theorem add_then_retrieve {T : Type} (identifier : T → String) (r : T)
    (m m' : Mapping T) (h : add identifier r m = .ok m') :
    retrieve m' (identifier r) = .ok r := by
  rcases hc : mapContains m (identifier r) with _ | _
  · have hm : m' = mapInsert m (identifier r) r := by
      simp [add, write_ok, hc] at h
      exact h.symm
    subst hm
    simp [retrieve, mapGet_mapInsert_self]
  · simp [add, write_ok, hc] at h

/-- C6 (witness): adding the `acme` contractor to the empty collection and
retrieving `acme` returns it. -/
theorem add_then_retrieve_witness :
    retrieve [("acme", acmeContractor)] "acme" = .ok acmeContractor :=
  add_then_retrieve Contractor.identifier acmeContractor []
    [("acme", acmeContractor)] (by decide)

/-! ## Claim C7 — `overwrite` on present and absent identifiers -/

/-- C7: on a present identifier `overwrite` succeeds with the re-inserted
record, the number of stored entries is unchanged, and retrieving the
identifier returns the new record; on an absent identifier it fails
with the missing-identifier error and the collection is unchanged. -/
theorem overwrite_spec {T : Type} (identifier : T → String) (r : T)
    (m : Mapping T) (hnd : (mapKeys m).Nodup) :
    (mapContains m (identifier r) = true →
      overwrite identifier r m =
        .ok (mapInsert (mapRemove m (identifier r)) (identifier r) r) ∧
      (mapInsert (mapRemove m (identifier r)) (identifier r) r).length = m.length ∧
      retrieve (mapInsert (mapRemove m (identifier r)) (identifier r) r)
        (identifier r) = .ok r) ∧
    (mapContains m (identifier r) = false →
      overwrite identifier r m =
        .error (.CmdError ("item with slug " ++ identifier r ++ " was not found")) ∧
      runOverwrite identifier r m = m) := by
  constructor
  · intro h
    refine ⟨by simp [overwrite, write_ok, h], ?_, ?_⟩
    · have h1 : mapContains (mapRemove m (identifier r)) (identifier r) = false := by
        simp [mapContains, mapGet_mapRemove_self]
      rw [mapInsert_length _ _ _ h1]
      exact mapRemove_length m (identifier r) hnd h
    · simp [retrieve, mapGet_mapInsert_self]
  · intro h
    constructor
    · simp [overwrite, write_ok, h]
    · simp [runOverwrite, overwrite, write_ok, h]

/-- C7 (witness): overwriting the stored `acme` contractor with a renamed
value keeps the two-entry collection at two entries and retrieval returns
the new value; overwriting under the absent slug of `otherContractor`
renamed would fail (present case exercised here). -/
theorem overwrite_spec_witness :
    overwrite Contractor.identifier (Contractor.mk "acme" "Acme 2")
      [("acme", acmeContractor), ("beta", Contractor.mk "beta" "Beta")] =
      .ok (mapInsert
        (mapRemove [("acme", acmeContractor), ("beta", Contractor.mk "beta" "Beta")] "acme")
        "acme" (Contractor.mk "acme" "Acme 2")) ∧
    (mapInsert
      (mapRemove [("acme", acmeContractor), ("beta", Contractor.mk "beta" "Beta")] "acme")
      "acme" (Contractor.mk "acme" "Acme 2")).length =
      ([("acme", acmeContractor), ("beta", Contractor.mk "beta" "Beta")] : Mapping Contractor).length ∧
    retrieve (mapInsert
      (mapRemove [("acme", acmeContractor), ("beta", Contractor.mk "beta" "Beta")] "acme")
      "acme" (Contractor.mk "acme" "Acme 2")) "acme" = .ok (Contractor.mk "acme" "Acme 2") :=
  (overwrite_spec Contractor.identifier (Contractor.mk "acme" "Acme 2")
    [("acme", acmeContractor), ("beta", Contractor.mk "beta" "Beta")] (by decide)).1 (by decide)

/-! ## Filter-pipeline facts -/

/-- On an empty record list the pipeline errors whatever the chain is. -/
theorem apply_filterset_nil_items {R F : Type} (filt : List R → F → List R)
    (filters : List F) :
    apply_filterset filt ([] : List R) filters = .error .FilterNoResults := by
  cases filters <;> rfl

/-- Instrumented version of `apply_filterset_nil_items`: no filter is
invoked either. -/
theorem apply_filterset_tr_nil_items {R F : Type} (filt : List R → F → List R)
    (filters : List F) :
    apply_filterset_tr filt ([] : List R) filters =
      (.error .FilterNoResults, []) := by
  cases filters <;> rfl

/-! ## Claim C2 — empty filter chain -/

/-- C2 (counterexample): with both the record list and the filter list
empty, `apply_filterset` fails with `FilterNoResults` instead of
succeeding with the empty list, because the empty-items pattern
`(0, _)` is matched before the empty-filters pattern `(_, 0)`. -/
theorem filterset_empty_empty_error :
    apply_filterset HourLog.filter ([] : List HourLog) ([] : List Hours.F) =
      .error .FilterNoResults ∧
    apply_filterset HourLog.filter ([] : List HourLog) ([] : List Hours.F) ≠
      .ok [] := by
  constructor
  · rfl
  · decide

/-- C2 (amended): an empty filter chain returns a non-empty input
unchanged; on an empty record list `apply_filterset` fails with
`FilterNoResults` even when the filter list is empty too. -/
theorem filterset_empty_filters {R F : Type} (filt : List R → F → List R)
    (items : List R) (filters : List F) (h : items ≠ []) :
    apply_filterset filt items [] = .ok items ∧
    apply_filterset filt [] filters = .error .FilterNoResults := by
  constructor
  · cases items with
    | nil => exact absurd rfl h
    | cons x xs => rfl
  · exact apply_filterset_nil_items filt filters

/-- C2 (witness): a one-record list passes through the empty chain
unchanged, and the empty record list with a one-filter chain errors. -/
theorem filterset_empty_filters_witness :
    apply_filterset HourLog.filter [sampleLog] [] = .ok [sampleLog] ∧
    apply_filterset HourLog.filter [] [Hours.F.NoFilter] = .error .FilterNoResults :=
  filterset_empty_filters HourLog.filter [sampleLog] [Hours.F.NoFilter] (by decide)

/-! ## Claim C3 — short-circuit on an emptied record list -/

/-- Instrumented and plain pipelines agree on the returned result. -/
theorem apply_filterset_tr_fst {R F : Type} (filt : List R → F → List R) :
    ∀ (filters : List F) (items : List R),
      (apply_filterset_tr filt items filters).1 = apply_filterset filt items filters := by
  intro filters
  induction filters with
  | nil =>
      intro items
      cases items with
      | nil => rfl
      | cons x xs => rfl
  | cons f fs ih =>
      intro items
      cases items with
      | nil => rfl
      | cons x xs =>
          show (apply_filterset_tr filt (filt (x :: xs) f) fs).1 = _
          exact ih (filt (x :: xs) f)

/-- If filtering by some prefix of the chain empties the record list, the
pipeline returns `FilterNoResults`. -/
theorem apply_filterset_foldl_nil {R F : Type} (filt : List R → F → List R) :
    ∀ (p rest : List F) (items : List R), List.foldl filt items p = [] →
      apply_filterset filt items (p ++ rest) = .error .FilterNoResults := by
  intro p
  induction p with
  | nil =>
      intro rest items hp
      simp only [List.foldl_nil] at hp
      subst hp
      exact apply_filterset_nil_items filt rest
  | cons f p' ih =>
      intro rest items hp
      cases items with
      | nil => exact apply_filterset_nil_items filt _
      | cons x xs =>
          show apply_filterset filt (filt (x :: xs) f) (p' ++ rest) = _
          exact ih rest (filt (x :: xs) f) hp

/-- If filtering by some prefix of the chain empties the record list, the
filters actually applied form a sub-prefix of that prefix: nothing after
it is ever invoked. -/
theorem apply_filterset_tr_take {R F : Type} (filt : List R → F → List R) :
    ∀ (p rest : List F) (items : List R), List.foldl filt items p = [] →
      ∃ k, k ≤ p.length ∧ (apply_filterset_tr filt items (p ++ rest)).2 = p.take k := by
  intro p
  induction p with
  | nil =>
      intro rest items hp
      simp only [List.foldl_nil] at hp
      subst hp
      exact ⟨0, Nat.le_refl 0, by simp [apply_filterset_tr_nil_items]⟩
  | cons f p' ih =>
      intro rest items hp
      cases items with
      | nil => exact ⟨0, Nat.zero_le _, by simp [apply_filterset_tr_nil_items]⟩
      | cons x xs =>
          obtain ⟨k, hk, htr⟩ := ih rest (filt (x :: xs) f) hp
          refine ⟨k + 1, by simpa using Nat.succ_le_succ hk, ?_⟩
          show f :: (apply_filterset_tr filt (filt (x :: xs) f) (p' ++ rest)).2 = _
          rw [htr]
          rfl

/-- C3: for a chain with a record-emptying prefix, `apply_filterset`
fails with `FilterNoResults` and the filters it invoked are confined to
that prefix — the remaining filters are never applied. -/
theorem filterset_short_circuit {R F : Type} (filt : List R → F → List R)
    (items : List R) (p rest : List F) (_hne : p ++ rest ≠ [])
    (hp : List.foldl filt items p = []) :
    apply_filterset filt items (p ++ rest) = .error .FilterNoResults ∧
    ∃ k, k ≤ p.length ∧ (apply_filterset_tr filt items (p ++ rest)).2 = p.take k :=
  ⟨apply_filterset_foldl_nil filt p rest items hp,
   apply_filterset_tr_take filt p rest items hp⟩

/-- C3 (witness): on the chain `[ByAlias "zzz", NoFilter]` over a record
whose alias is not `zzz`, the first filter empties the list, the pipeline
errors, and only the first filter was invoked. -/
theorem filterset_short_circuit_witness :
    apply_filterset HourLog.filter [sampleLog]
      ([Hours.F.ByAlias "zzz"] ++ [Hours.F.NoFilter]) = .error .FilterNoResults ∧
    ∃ k, k ≤ ([Hours.F.ByAlias "zzz"] : List Hours.F).length ∧
      (apply_filterset_tr HourLog.filter [sampleLog]
        ([Hours.F.ByAlias "zzz"] ++ [Hours.F.NoFilter])).2 = [Hours.F.ByAlias "zzz"].take k :=
  filterset_short_circuit HourLog.filter [sampleLog]
    [Hours.F.ByAlias "zzz"] [Hours.F.NoFilter] (by decide) (by decide)

/-! ## Claim C9 — totality of `apply_filterset` and the safe `unwrap` -/

/-- C9: with any fuel exceeding the filter count, the literal recursion of
the source (length match, `first().unwrap()`, recursion on `filters[1..]`)
terminates with exactly the value of `apply_filterset`: it neither runs
out of fuel (the recursion consumes one filter per step) nor reaches the
`unwrap` panic (that branch requires a non-empty filter list). -/
theorem filterset_run_total {R F : Type} (filt : List R → F → List R) :
    ∀ (filters : List F) (items : List R) (fuel : Nat), filters.length < fuel →
      apply_filterset_run filt fuel items filters =
        .value (apply_filterset filt items filters) := by
  intro filters
  induction filters with
  | nil =>
      intro items fuel h
      cases fuel with
      | zero => exact absurd h (by simp)
      | succ f =>
          cases items with
          | nil => rfl
          | cons x xs => simp [apply_filterset_run, apply_filterset]
  | cons g gs ih =>
      intro items fuel h
      cases fuel with
      | zero => exact absurd h (by simp)
      | succ f =>
          cases items with
          | nil => rfl
          | cons x xs =>
              have hstep : apply_filterset_run filt (f + 1) (x :: xs) (g :: gs) =
                  apply_filterset_run filt f (filt (x :: xs) g) gs := by
                simp [apply_filterset_run]
              rw [hstep]
              have hlt : gs.length < f := by
                simpa using Nat.lt_of_succ_lt_succ h
              rw [ih (filt (x :: xs) g) f hlt]
              rfl

/-- C9 (witness): fuel 2 runs the one-filter chain to the same value as
`apply_filterset`, with no panic and no fuel exhaustion. -/
theorem filterset_run_total_witness :
    apply_filterset_run HourLog.filter 2 [sampleLog] [Hours.F.NoFilter] =
      .value (apply_filterset HourLog.filter [sampleLog] [Hours.F.NoFilter]) :=
  filterset_run_total HourLog.filter [Hours.F.NoFilter] [sampleLog] 2 (by decide)

/-! ## Claim C8 — the default sort is a no-op -/

/-- C8: for each entity type, sorting with the default `NoSort` method
returns the input list unchanged and in the same order (for `Alias` and
`Contractor` every method is the identity); `sort` is a total function
and never fails. -/
theorem default_sort_noop (hs : List HourLog) (as : List Alias)
    (cs : List Contractor) (sa : Aliases.S) (sc : Contractors.S) :
    HourLog.sort hs Hours.DEFAULT_SORT = hs ∧
    Alias.sort as sa = as ∧
    Contractor.sort cs sc = cs :=
  ⟨rfl, rfl, rfl⟩

/-! ## Claim C10 — idempotence of `slugify` -/

/-- Reading back the fuelled digit expansion gives the number, for any
sufficient fuel. -/
theorem digitsVal_toDigitsRev : ∀ (fuel n : Nat), n ≤ fuel →
    digitsVal (toDigitsRev fuel n) = n := by
  intro fuel
  induction fuel with
  | zero =>
      intro n h
      have hn : n = 0 := Nat.le_zero.1 h
      simp [toDigitsRev, hn, digitsVal]
  | succ f ih =>
      intro n h
      by_cases hn : n = 0
      · simp [toDigitsRev, hn, digitsVal]
      · have hrec : n / 10 ≤ f := by
          have h1 : n / 10 < n := Nat.div_lt_self (Nat.pos_of_ne_zero hn) (by omega)
          omega
        simp [toDigitsRev, hn, digitsVal, ih (n / 10) hrec]
        omega

/-- Every digit of the expansion is below 10. -/
theorem toDigitsRev_lt_ten : ∀ (fuel n : Nat), ∀ d ∈ toDigitsRev fuel n, d < 10 := by
  intro fuel
  induction fuel with
  | zero => intro n d hd; simp [toDigitsRev] at hd
  | succ f ih =>
      intro n d hd
      by_cases hn : n = 0
      · simp [toDigitsRev, hn] at hd
      · simp only [toDigitsRev, if_neg hn, List.mem_cons] at hd
        rcases hd with hd | hd
        · omega
        · exact ih (n / 10) d hd

/-- The expansion of `n < 10 ^ k` has at most `k` digits. -/
theorem toDigitsRev_length_le : ∀ (fuel n k : Nat), n < 10 ^ k →
    (toDigitsRev fuel n).length ≤ k := by
  intro fuel
  induction fuel with
  | zero => intro n k _; simp [toDigitsRev]
  | succ f ih =>
      intro n k h
      by_cases hn : n = 0
      · simp [toDigitsRev, hn]
      · cases k with
        | zero => simp at h; omega
        | succ k' =>
            have hdiv : n / 10 < 10 ^ k' := by
              rw [pow_succ] at h
              exact Nat.div_lt_of_lt_mul (by omega)
            simp only [toDigitsRev, if_neg hn, List.length_cons]
            exact Nat.succ_le_succ (ih (n / 10) k' hdiv)

/-- Digit characters decode to their digit. -/
theorem charVal_digitChar (d : Nat) (h : d < 10) : charVal (digitChar d) = d := by
  unfold charVal digitChar
  have hv : (Char.ofNat (48 + d)).toNat = 48 + d := by
    unfold Char.ofNat
    rw [dif_pos (Or.inl (by omega))]
    rfl
  rw [hv]
  omega

/-- Digit characters pass the digit test. -/
theorem isDigitChar_digitChar (d : Nat) (h : d < 10) :
    isDigitChar (digitChar d) = true := by
  unfold isDigitChar digitChar
  have hv : (Char.ofNat (48 + d)).toNat = 48 + d := by
    unfold Char.ofNat
    rw [dif_pos (Or.inl (by omega))]
    rfl
  rw [hv]
  simp only [Bool.and_eq_true, decide_eq_true_eq]
  omega

/-- Reading back the decimal notation gives the number. -/
theorem charsToNat_natChars (n : Nat) : charsToNat (natChars n) = n := by
  unfold charsToNat natChars
  rw [List.map_reverse, List.reverse_reverse]
  have hmap : (toDigitsRev n n).map (charVal ∘ digitChar) = toDigitsRev n n := by
    rw [List.map_congr_left
      (fun d hd => by
        show (charVal ∘ digitChar) d = id d
        exact charVal_digitChar d (toDigitsRev_lt_ten n n d hd))]
    exact List.map_id _
  rw [List.map_map, hmap]
  exact digitsVal_toDigitsRev n n (Nat.le_refl n)

/-- Every character of the decimal notation is a digit. -/
theorem natChars_all_digits (n : Nat) : ∀ c ∈ natChars n, isDigitChar c = true := by
  intro c hc
  unfold natChars at hc
  rw [List.mem_reverse] at hc
  obtain ⟨d, hd, hc⟩ := List.mem_map.1 hc
  rw [← hc]
  exact isDigitChar_digitChar d (toDigitsRev_lt_ten n n d hd)

/-- The decimal notation of `n < 10 ^ k` has at most `k` characters. -/
theorem natChars_length_le (n k : Nat) (h : n < 10 ^ k) :
    (natChars n).length ≤ k := by
  unfold natChars
  rw [List.length_reverse, List.length_map]
  exact toDigitsRev_length_le n n k h

/-- Every character of the padded decimal notation is a digit. -/
theorem padNat_all_digits (w n : Nat) : ∀ c ∈ padNat w n, isDigitChar c = true := by
  intro c hc
  unfold padNat at hc
  rcases List.mem_append.1 hc with hc | hc
  · rw [List.eq_of_mem_replicate hc]
    rfl
  · exact natChars_all_digits n c hc

/-- The padded notation of positive width is never empty. -/
theorem padNat_ne_nil (w n : Nat) (hw : 1 ≤ w) : padNat w n ≠ [] := by
  intro hnil
  have hlen : (padNat w n).length = 0 := by rw [hnil]; rfl
  unfold padNat at hlen
  rw [List.length_append, List.length_replicate] at hlen
  omega

/-- Padding to a width at least the digit count gives exactly that
width. -/
theorem padNat_length (w n : Nat) (h : (natChars n).length ≤ w) :
    (padNat w n).length = w := by
  unfold padNat
  rw [List.length_append, List.length_replicate]
  omega

/-- Trailing zero digits do not change the value. -/
theorem digitsVal_append_zeros (xs : List Nat) (k : Nat) :
    digitsVal (xs ++ List.replicate k 0) = digitsVal xs := by
  induction xs with
  | nil =>
      simp only [List.nil_append, digitsVal]
      induction k with
      | zero => rfl
      | succ k' ih => simp [List.replicate, digitsVal, ih]
  | cons d ds ih => simp [digitsVal, ih]

/-- Reading back the padded decimal notation gives the number: leading
zeros are value-preserving. -/
theorem charsToNat_padNat (w n : Nat) : charsToNat (padNat w n) = n := by
  unfold charsToNat padNat
  rw [List.map_append, List.map_replicate, List.reverse_append,
    List.reverse_replicate]
  have h0 : charVal '0' = 0 := rfl
  rw [h0, digitsVal_append_zeros]
  exact charsToNat_natChars n

/-- Scanning digits stops exactly at the first non-digit separator. -/
theorem takeWhile_append_not {p : Char → Bool} :
    ∀ (l1 : List Char) (c : Char) (r : List Char),
      (∀ x ∈ l1, p x = true) → p c = false →
      ((l1 ++ c :: r).takeWhile p = l1 ∧ (l1 ++ c :: r).dropWhile p = c :: r) := by
  intro l1
  induction l1 with
  | nil =>
      intro c r _ hc
      simp [List.takeWhile_cons, List.dropWhile_cons, hc]
  | cons x xs ih =>
      intro c r h hc
      have hx : p x = true := h x (by simp)
      have hrec := ih c r (fun y hy => h y (by simp [hy])) hc
      simp [List.takeWhile_cons, List.dropWhile_cons, hx, hrec.1, hrec.2]

/-- Scanning a list of digits consumes all of it. -/
theorem takeWhile_all {p : Char → Bool} :
    ∀ (l : List Char), (∀ x ∈ l, p x = true) →
      (l.takeWhile p = l ∧ l.dropWhile p = []) := by
  intro l
  induction l with
  | nil => intro _; exact ⟨rfl, rfl⟩
  | cons x xs ih =>
      intro h
      have hx : p x = true := h x (by simp)
      have hrec := ih (fun y hy => h y (by simp [hy]))
      simp [List.takeWhile_cons, List.dropWhile_cons, hx, hrec.1, hrec.2]

/-- Parsing `%Y-%m-%d` at the front of a printed date recovers the date's
fields and leaves exactly the remainder, provided the remainder does not
begin with a digit. -/
theorem parseDateChars_dateChars (d : Date) (rest : List Char)
    (hrest : ∀ c, rest.head? = some c → isDigitChar c = false) :
    parseDateChars (dateChars d ++ rest) = some (d, rest) := by
  have hdash : isDigitChar '-' = false := rfl
  have h1 := takeWhile_append_not (padNat 4 d.year) '-'
    (padNat 2 d.month ++ '-' :: (padNat 2 d.day ++ rest))
    (padNat_all_digits 4 d.year) hdash
  have h2 := takeWhile_append_not (padNat 2 d.month) '-'
    (padNat 2 d.day ++ rest) (padNat_all_digits 2 d.month) hdash
  have h3 : ((padNat 2 d.day ++ rest).takeWhile isDigitChar = padNat 2 d.day) ∧
      ((padNat 2 d.day ++ rest).dropWhile isDigitChar = rest) := by
    cases rest with
    | nil =>
        rw [List.append_nil]
        exact takeWhile_all (padNat 2 d.day) (padNat_all_digits 2 d.day)
    | cons c r =>
        exact takeWhile_append_not (padNat 2 d.day) c r
          (padNat_all_digits 2 d.day) (hrest c rfl)
  have he1 : (padNat 4 d.year).isEmpty = false := by
    cases hp : padNat 4 d.year with
    | nil => exact absurd hp (padNat_ne_nil 4 d.year (by omega))
    | cons a l => rfl
  have he2 : (padNat 2 d.month).isEmpty = false := by
    cases hp : padNat 2 d.month with
    | nil => exact absurd hp (padNat_ne_nil 2 d.month (by omega))
    | cons a l => rfl
  have he3 : (padNat 2 d.day).isEmpty = false := by
    cases hp : padNat 2 d.day with
    | nil => exact absurd hp (padNat_ne_nil 2 d.day (by omega))
    | cons a l => rfl
  unfold dateChars at *
  unfold parseDateChars
  simp only [List.cons_append, List.append_assoc] at *
  rw [h1.1, h1.2, he1]
  simp only [Bool.false_eq_true, if_false]
  rw [h2.1, h2.2, he2]
  simp only [Bool.false_eq_true, if_false]
  rw [h3.1, h3.2, he3]
  simp only [Bool.false_eq_true, if_false]
  rw [charsToNat_padNat, charsToNat_padNat, charsToNat_padNat]

/-- The padded notation is all digits, as a `Bool`. -/
theorem allDigits_padNat (w n : Nat) : allDigits (padNat w n) = true := by
  unfold allDigits
  rw [List.all_eq_true]
  exact padNat_all_digits w n

/-- Dot-led branch of the fractional-second parser, spelled out. -/
theorem parseFracChars_dot (ds : List Char) :
    parseFracChars ('.' :: ds) =
      if ds.isEmpty then none
      else if allDigits ds && ds.length ≤ 9 then
        some (charsToNat ds * 10 ^ (9 - ds.length))
      else none :=
  rfl

/-- Parsing the `%.f` form recovers the nanosecond count. -/
theorem parseFracChars_fracChars (n : Nat) (h : n < 1000000000) :
    parseFracChars (fracChars n) = some n := by
  unfold fracChars
  by_cases h0 : n = 0
  · simp [h0, parseFracChars]
  · rw [if_neg h0]
    by_cases h6 : n % 1000000 = 0
    · rw [if_pos h6]
      have hx : n / 1000000 < 1000 := Nat.div_lt_of_lt_mul (by omega)
      have hlen : (padNat 3 (n / 1000000)).length = 3 :=
        padNat_length 3 _ (natChars_length_le _ 3 (by norm_num; omega))
      have hne : (padNat 3 (n / 1000000)).isEmpty = false := by
        cases hp : padNat 3 (n / 1000000) with
        | nil => exact absurd hp (padNat_ne_nil 3 _ (by omega))
        | cons a l => rfl
      rw [parseFracChars_dot, hne]
      simp only [Bool.false_eq_true, if_false]
      rw [allDigits_padNat, hlen]
      norm_num
      rw [charsToNat_padNat, Nat.div_mul_cancel (Nat.dvd_of_mod_eq_zero h6)]
    · rw [if_neg h6]
      by_cases h3 : n % 1000 = 0
      · rw [if_pos h3]
        have hx : n / 1000 < 1000000 := Nat.div_lt_of_lt_mul (by omega)
        have hlen : (padNat 6 (n / 1000)).length = 6 :=
          padNat_length 6 _ (natChars_length_le _ 6 (by norm_num; omega))
        have hne : (padNat 6 (n / 1000)).isEmpty = false := by
          cases hp : padNat 6 (n / 1000) with
          | nil => exact absurd hp (padNat_ne_nil 6 _ (by omega))
          | cons a l => rfl
        rw [parseFracChars_dot, hne]
        simp only [Bool.false_eq_true, if_false]
        rw [allDigits_padNat, hlen]
        norm_num
        rw [charsToNat_padNat, Nat.div_mul_cancel (Nat.dvd_of_mod_eq_zero h3)]
      · rw [if_neg h3]
        have hlen : (padNat 9 n).length = 9 :=
          padNat_length 9 _ (natChars_length_le _ 9 (by norm_num; omega))
        have hne : (padNat 9 n).isEmpty = false := by
          cases hp : padNat 9 n with
          | nil => exact absurd hp (padNat_ne_nil 9 _ (by omega))
          | cons a l => rfl
        rw [parseFracChars_dot, hne]
        simp only [Bool.false_eq_true, if_false]
        rw [allDigits_padNat, hlen]
        norm_num
        rw [charsToNat_padNat]

/-- Parsing `%H:%M:%S%.f` recovers the time of day. -/
theorem parseTimeChars_timeChars (t : Time) (h : t.nano < 1000000000) :
    parseTimeChars (timeChars t) = some t := by
  have hcolon : isDigitChar ':' = false := rfl
  have h1 := takeWhile_append_not (padNat 2 t.hour) ':'
    (padNat 2 t.minute ++ ':' :: (padNat 2 t.second ++ fracChars t.nano))
    (padNat_all_digits 2 t.hour) hcolon
  have h2 := takeWhile_append_not (padNat 2 t.minute) ':'
    (padNat 2 t.second ++ fracChars t.nano) (padNat_all_digits 2 t.minute) hcolon
  have h3 : ((padNat 2 t.second ++ fracChars t.nano).takeWhile isDigitChar =
      padNat 2 t.second) ∧
      ((padNat 2 t.second ++ fracChars t.nano).dropWhile isDigitChar =
      fracChars t.nano) := by
    by_cases h0 : t.nano = 0
    · have hfc : fracChars t.nano = [] := by rw [h0]; rfl
      rw [hfc, List.append_nil]
      exact takeWhile_all (padNat 2 t.second) (padNat_all_digits 2 t.second)
    · have hdot : isDigitChar '.' = false := rfl
      unfold fracChars
      rw [if_neg h0]
      by_cases h6 : t.nano % 1000000 = 0
      · rw [if_pos h6]
        exact takeWhile_append_not _ '.' _ (padNat_all_digits 2 t.second) hdot
      · rw [if_neg h6]
        by_cases h3 : t.nano % 1000 = 0
        · rw [if_pos h3]
          exact takeWhile_append_not _ '.' _ (padNat_all_digits 2 t.second) hdot
        · rw [if_neg h3]
          exact takeWhile_append_not _ '.' _ (padNat_all_digits 2 t.second) hdot
  have he1 : (padNat 2 t.hour).isEmpty = false := by
    cases hp : padNat 2 t.hour with
    | nil => exact absurd hp (padNat_ne_nil 2 _ (by omega))
    | cons a l => rfl
  have he2 : (padNat 2 t.minute).isEmpty = false := by
    cases hp : padNat 2 t.minute with
    | nil => exact absurd hp (padNat_ne_nil 2 _ (by omega))
    | cons a l => rfl
  have he3 : (padNat 2 t.second).isEmpty = false := by
    cases hp : padNat 2 t.second with
    | nil => exact absurd hp (padNat_ne_nil 2 _ (by omega))
    | cons a l => rfl
  unfold timeChars at *
  unfold parseTimeChars
  simp only [List.cons_append, List.append_assoc] at *
  rw [h1.1, h1.2, he1]
  simp only [Bool.false_eq_true, if_false]
  rw [h2.1, h2.2, he2]
  simp only [Bool.false_eq_true, if_false]
  rw [h3.1, h3.2, he3]
  simp only [Bool.false_eq_true, if_false]
  rw [parseFracChars_fracChars t.nano h]
  rw [charsToNat_padNat, charsToNat_padNat, charsToNat_padNat]

/-- Parsing a printed date string with range validation recovers a valid
date. -/
theorem dateFromChars_dateChars (d : Date) (hv : d.validB = true) :
    dateFromChars (dateChars d) = some d := by
  unfold dateFromChars
  rw [← List.append_nil (dateChars d),
    parseDateChars_dateChars d [] (by intro c hc; simp at hc)]
  simp [hv]

/-- Parsing a printed date-time string recovers a valid date-time. -/
theorem dateTimeFromChars_dateTimeChars (dt : DateTime) (hv : dt.validB = true) :
    dateTimeFromChars (dateTimeChars dt) = some dt := by
  have hnano : dt.time.nano < 1000000000 := by
    unfold DateTime.validB at hv
    simp only [Bool.and_eq_true, decide_eq_true_eq] at hv
    exact hv.2
  unfold dateTimeFromChars dateTimeChars
  rw [parseDateChars_dateChars dt.date ('T' :: timeChars dt.time)
    (by intro c hc; injection hc with hc; rw [← hc]; rfl)]
  show (match parseTimeChars (timeChars dt.time) with
    | some t =>
        if DateTime.validB ⟨dt.date, t⟩ = true then some (⟨dt.date, t⟩ : DateTime)
        else none
    | none => none) = some dt
  rw [parseTimeChars_timeChars dt.time hnano]
  show (if DateTime.validB ⟨dt.date, dt.time⟩ = true then
    some (⟨dt.date, dt.time⟩ : DateTime) else none) = some dt
  simp [hv]

/-- Bind on a successful `Except` applies the continuation. -/
theorem except_bind_ok {ε α β : Type} (a : α) (f : α → Except ε β) :
    (Except.ok (ε := ε) a >>= f) = f a :=
  rfl

/-- Decoding the serde form of an optional string gives it back. -/
theorem jOptString_optStringJson (o : Option String) :
    jOptString (optStringJson o) = .ok o := by
  cases o <;> rfl

/-- Decoding the serde string form of a valid date gives it back. -/
theorem jDate_dateToString (d : Date) (hv : d.validB = true) :
    jDate (.str (dateToString d)) = .ok d := by
  have h1 : dateFromString (dateToString d) = some d := dateFromChars_dateChars d hv
  simp [jDate, h1]

/-- Decoding the serde string form of a valid date-time gives it back. -/
theorem jDateTime_dateTimeToString (dt : DateTime) (hv : dt.validB = true) :
    jDateTime (.str (dateTimeToString dt)) = .ok dt := by
  have h1 : dateTimeFromString (dateTimeToString dt) = some dt :=
    dateTimeFromChars_dateTimeChars dt hv
  simp [jDateTime, h1]

/-- One-record JSON round trip: decoding the encoded form of a valid
`HourLog` gives the record back. -/
theorem HourLog.fromJson_toJson (hl : HourLog) (hv : hl.validB = true) :
    HourLog.fromJson (HourLog.toJson hl) = .ok hl := by
  have hparts : hl.minutes < 4294967296 ∧ hl.date.validB = true ∧
      hl.timestamp.validB = true := by
    unfold HourLog.validB at hv
    simp only [Bool.and_eq_true, decide_eq_true_eq] at hv
    exact ⟨hv.1.1, hv.1.2, hv.2⟩
  simp [HourLog.toJson, HourLog.fromJson, jField, jlookup, jString, jU32,
    jOptString_optStringJson, jDate_dateToString hl.date hparts.2.1,
    jDateTime_dateTimeToString hl.timestamp hparts.2.2, hparts.1,
    except_bind_ok]

/-- Collection-level JSON round trip for `HourLog`. -/
theorem hourlog_deserialize_serialize (m : Mapping HourLog)
    (hv : ∀ p ∈ m, HourLog.validB p.2 = true) :
    HourLog.deserialize (HourLog.serialize m) = .ok m := by
  induction m with
  | nil => rfl
  | cons p t ih =>
      obtain ⟨k, v⟩ := p
      have hvv : HourLog.validB v = true := hv (k, v) (by simp)
      have hrec : jEntries (t.map (fun q => (q.1, HourLog.toJson q.2))) = .ok t :=
        ih (fun q hq => hv q (by simp [hq]))
      show jEntries ((k, HourLog.toJson v) :: t.map (fun q => (q.1, HourLog.toJson q.2))) =
        .ok ((k, v) :: t)
      unfold jEntries
      rw [HourLog.fromJson_toJson v hvv, hrec]

/-- One-record TOML round trip for `Contractor`. -/
theorem contractor_fromToml_toToml (c : Contractor) :
    Contractor.fromToml (Contractor.toToml c) = .ok c := by
  simp [Contractor.toToml, Contractor.fromToml, tField, tlookup, tString,
    except_bind_ok]

/-- Collection-level TOML round trip for `Contractor`. -/
theorem contractor_deserialize_serialize (m : Mapping Contractor) :
    Contractor.deserialize (Contractor.serialize m) = .ok m := by
  induction m with
  | nil => rfl
  | cons p t ih =>
      obtain ⟨k, v⟩ := p
      have hrec : tContractorEntries (t.map (fun q => (q.1, Contractor.toToml q.2))) =
          .ok t := ih
      show tContractorEntries
        ((k, Contractor.toToml v) :: t.map (fun q => (q.1, Contractor.toToml q.2))) =
        .ok ((k, v) :: t)
      unfold tContractorEntries
      rw [contractor_fromToml_toToml v, hrec]

/-- One-record TOML round trip for a valid `Alias`. -/
theorem alias_fromToml_toToml (a : Alias) (hv : a.validB = true) :
    Alias.fromToml (Alias.toToml a) = .ok a := by
  have hr : a.hourly_rate < 256 := by
    unfold Alias.validB at hv
    simpa using hv
  simp [Alias.toToml, Alias.fromToml, tField, tlookup, tString, tU8, hr,
    except_bind_ok]

/-- Collection-level TOML round trip for `Alias`. -/
theorem alias_deserialize_serialize (m : Mapping Alias)
    (hv : ∀ p ∈ m, Alias.validB p.2 = true) :
    Alias.deserialize (Alias.serialize m) = .ok m := by
  induction m with
  | nil => rfl
  | cons p t ih =>
      obtain ⟨k, v⟩ := p
      have hvv : Alias.validB v = true := hv (k, v) (by simp)
      have hrec : tAliasEntries (t.map (fun q => (q.1, Alias.toToml q.2))) = .ok t :=
        ih (fun q hq => hv q (by simp [hq]))
      show tAliasEntries ((k, Alias.toToml v) :: t.map (fun q => (q.1, Alias.toToml q.2))) =
        .ok ((k, v) :: t)
      unfold tAliasEntries
      rw [alias_fromToml_toToml v hvv, hrec]

/-! ## Claim C5 — codec round trip -/

/-- C5: for every collection producible from valid records, decoding the
encoded collection yields the collection again — for the TOML codecs of
`Contractor` and `Alias` and the JSON codec of `HourLog`. -/
theorem codec_round_trip (cm : Mapping Contractor) (am : Mapping Alias)
    (hm : Mapping HourLog)
    (ha : ∀ p ∈ am, Alias.validB p.2 = true)
    (hh : ∀ p ∈ hm, HourLog.validB p.2 = true) :
    Contractor.deserialize (Contractor.serialize cm) = .ok cm ∧
    Alias.deserialize (Alias.serialize am) = .ok am ∧
    HourLog.deserialize (HourLog.serialize hm) = .ok hm :=
  ⟨contractor_deserialize_serialize cm,
   alias_deserialize_serialize am ha,
   hourlog_deserialize_serialize hm hh⟩

/-- C5 (witness): concrete one-record collections of each entity type
survive the round trip. -/
theorem codec_round_trip_witness :
    Contractor.deserialize (Contractor.serialize [("acme", acmeContractor)]) =
      .ok [("acme", acmeContractor)] ∧
    Alias.deserialize (Alias.serialize [("proj", sampleAlias)]) =
      .ok [("proj", sampleAlias)] ∧
    HourLog.deserialize (HourLog.serialize [("abc123", sampleLog)]) =
      .ok [("abc123", sampleLog)] :=
  codec_round_trip [("acme", acmeContractor)] [("proj", sampleAlias)]
    [("abc123", sampleLog)] (by decide) (by decide)

end Bookit
